import Mathlib

set_option autoImplicit false

/-!
Verification development for the Lethe cryptographic storage layer.

Bytes are modelled as natural numbers and buffers as lists of bytes.  The
cipher is modelled, per the external-interface section of the design, as a
stream or counter-mode cipher with a fixed implicit zero IV: a keystream
indexed by (key, position), with one-shot encrypt and decrypt both given by
pointwise xor against the keystream.  The keyed hash forest is modelled from
its stated interface (derive is deterministic on the forest state, update
rotates one key and marks it dirty, commit returns and clears the dirty list,
truncate drops keys past the given count).  The backing object store and the
enclave are plain positional byte stores with full-length reads and writes.
-/

namespace Lethe

/-- Keys are byte strings; a key is modelled as a list of bytes. -/
abbrev Key := List Nat

/-- Cipher collaborator: a stream cipher given by its keystream.  ks k i is the
keystream byte at position i under key k. -/
structure Crypter where
  ks : Key → Nat → Nat

/-- Xor of a buffer against the keystream starting at position i. -/
def xorKs (c : Crypter) (k : Key) : Nat → List Nat → List Nat
  | _, [] => []
  | i, b :: bs => (b ^^^ c.ks k i) :: xorKs c k (i + 1) bs

/-- Model of onetime_encrypt: xor the plaintext against the keystream. -/
def Crypter.onetime_encrypt (c : Crypter) (k : Key) (p : List Nat) : List Nat :=
  xorKs c k 0 p

/-- Model of onetime_decrypt: xor the ciphertext against the keystream. -/
def Crypter.onetime_decrypt (c : Crypter) (k : Key) (p : List Nat) : List Nat :=
  xorKs c k 0 p









/-- Model of the external keyed hash forest (the khf crate), from its stated
interface: a forest state on which derive is deterministic, update rotates the
key of one id and marks it dirty, commit returns the dirty list and clears it,
and truncate drops keys at or past the given count.  The rotation state of each
id is tracked as an epoch counter; derive folds the forest seed, the id and the
epoch into the key. -/
structure Khf where
  seed : Nat
  epochs : List (Nat × Nat)
  dirty : List Nat
deriving DecidableEq

/-- Current epoch (number of updates so far) of an id. -/
def Khf.epoch (m : Khf) (b : Nat) : Nat :=
  (m.epochs.lookup b).getD 0

/-- Model of derive: deterministic key for an id given the forest state. -/
def Khf.derive (m : Khf) (b : Nat) : Key :=
  [m.seed, b, m.epoch b]

/-- Model of update: rotate the key of one id and mark the id dirty. -/
def Khf.update (m : Khf) (b : Nat) : Khf :=
  { m with
    epochs := (b, m.epoch b + 1) :: m.epochs.filter (fun p => p.1 != b)
    dirty := if b ∈ m.dirty then m.dirty else m.dirty ++ [b] }

/-- Model of commit: return the dirty list and clear it. -/
def Khf.commit (m : Khf) : List Nat × Khf :=
  (m.dirty, { m with dirty := [] })

/-- Model of truncate: drop keys of ids at or past the given key count. -/
def Khf.truncate (m : Khf) (n : Nat) : Khf :=
  { m with
    epochs := m.epochs.filter (fun p => decide (p.1 < n))
    dirty := m.dirty.filter (fun b => decide (b < n)) }

/-- Positional read from a byte store: returns min n (length - pos) bytes, the
behaviour of a full-length read against a plain file. -/
def readAt (data : List Nat) (pos n : Nat) : List Nat :=
  (data.drop pos).take n

/-- Positional write to a byte store: overlays the buffer at pos, zero-filling
any gap, the behaviour of a full-length write against a plain file. -/
def writeAt (data : List Nat) (pos : Nat) (bs : List Nat) : List Nat :=
  (data.take pos ++ List.replicate (pos - data.length) 0) ++ bs
    ++ data.drop (pos + bs.length)



namespace BlockCryptIo

/-!
Model of the block cipher adapter BlockCryptIo (src/src/io/blockcrypt.rs).
The underlying object is a byte store with full-length positional reads and
writes; the key authority is a Khf keyed by block index.  BLK is the block
size.  Machine-integer subtractions that can underflow in the source are kept
explicit: the one reachable underflow (nbytes - fill in read) leads to an
out-of-bounds slice, modelled as none.
-/

/-- Fuel-indexed block-by-block phase of BlockCryptIo read (the while loop of
the source): while bytes remain and the position is block-aligned, seek to the
block start, read up to a block of ciphertext, derive the block key, decrypt,
and copy the plaintext out; a short underlying read ends the loop, which also
ends when the position goes unaligned.  Each iteration consumes at least one
byte of size, so fuel = size makes the fuel bound inert. -/
def readLoopF (BLK : Nat) (c : Crypter) (kms : Khf) (data : List Nat) :
    Nat → Nat → Nat → List Nat
  | 0, _, _ => []
  | fuel + 1, offset, size =>
    if 0 < size ∧ offset % BLK = 0 then
      let rest := min size BLK
      let nbytes := min rest (data.length - offset)
      if nbytes = 0 then []
      else
        let tmp := readAt data offset nbytes ++ List.replicate (rest - nbytes) 0
        let dec := c.onetime_decrypt (kms.derive (offset / BLK)) tmp
        dec.take nbytes ++ readLoopF BLK c kms data fuel (offset + nbytes) (size - nbytes)
    else []

/-- Block-by-block phase of BlockCryptIo read, with the fuel instantiated. -/
def readLoop (BLK : Nat) (c : Crypter) (kms : Khf) (data : List Nat)
    (offset size : Nat) : List Nat :=
  readLoopF BLK c kms data size offset size

/-- Full BlockCryptIo read: optional unaligned head slice, then the aligned
loop.  none models the source panicking: when the position is unaligned and the
block holds fewer than fill bytes, the usize subtraction nbytes - fill wraps and
the subsequent slice indexing is out of bounds. -/
def read (BLK : Nat) (c : Crypter) (kms : Khf) (data : List Nat)
    (offset n : Nat) : Option (List Nat) :=
  if offset % BLK = 0 then some (readLoop BLK c kms data offset n)
  else
    let block := offset / BLK
    let fill := offset % BLK
    let rest := min n (BLK - fill)
    let off := block * BLK
    let nbytes := min (fill + rest) (data.length - off)
    if nbytes = 0 then some []
    else if nbytes < fill then none
    else if nbytes - fill = 0 then some []
    else
      let ar := nbytes - fill
      let tmp := readAt data off nbytes ++ List.replicate (fill + rest - nbytes) 0
      let dec := c.onetime_decrypt (kms.derive block) tmp
      some ((dec.drop fill).take ar ++ readLoop BLK c kms data (offset + ar) (n - ar))

/-- Fuel-indexed whole-block phase of BlockCryptIo write (the while loop of the
source): while at least a block remains and the position is aligned, update the
block key, encrypt a block of plaintext under the fresh key, and write it at
the block start.  Returns bytes written, new data, new key state, and the trace
of underlying writes.  Each iteration consumes a whole block of the buffer, so
fuel = buffer length makes the fuel bound inert. -/
def writeLoopF (BLK : Nat) (c : Crypter) :
    Nat → Khf → List Nat → Nat → List Nat → Nat × List Nat × Khf × List (Nat × List Nat)
  | 0, kms, data, _, _ => (0, data, kms, [])
  | fuel + 1, kms, data, offset, buf =>
    if 0 < buf.length ∧ 0 < buf.length / BLK ∧ offset % BLK = 0 then
      let block := offset / BLK
      let kms1 := kms.update block
      let tmp := c.onetime_encrypt (kms1.derive block) (buf.take BLK)
      let off := block * BLK
      let data1 := writeAt data off tmp
      let res := writeLoopF BLK c fuel kms1 data1 (offset + BLK) (buf.drop BLK)
      (BLK + res.1, res.2.1, res.2.2.1, (off, tmp) :: res.2.2.2)
    else (0, data, kms, [])

/-- Whole-block phase of BlockCryptIo write, with the fuel instantiated. -/
def writeLoop (BLK : Nat) (c : Crypter) (kms : Khf) (data : List Nat)
    (offset : Nat) (buf : List Nat) : Nat × List Nat × Khf × List (Nat × List Nat) :=
  writeLoopF BLK c buf.length kms data offset buf

/-- Aligned part of BlockCryptIo write: the whole-block loop followed by the
tail read-modify-write.  The tail reads a block buffer (ignoring the byte count
returned by the underlying read), decrypts it under the current key, overlays
the leading bytes, rotates the key, re-encrypts, and writes back the FULL block
buffer, as the source does. -/
def writeTail (BLK : Nat) (c : Crypter) (kms : Khf) (data : List Nat)
    (offset : Nat) (buf : List Nat) : Nat × List Nat × Khf × List (Nat × List Nat) :=
  let res := writeLoop BLK c kms data offset buf
  let total1 := res.1
  let data1 := res.2.1
  let kms1 := res.2.2.1
  let tr1 := res.2.2.2
  let size := buf.length - total1
  if size = 0 then (total1, data1, kms1, tr1)
  else
    let offset1 := offset + total1
    let block := offset1 / BLK
    let off := block * BLK
    let nbytesr := min BLK (data1.length - off)
    let tmp := readAt data1 off BLK ++ List.replicate (BLK - nbytesr) 0
    let dec := c.onetime_decrypt (kms1.derive block) tmp
    let merged := (buf.drop total1).take size ++ dec.drop size
    let kms2 := kms1.update block
    let enc := c.onetime_encrypt (kms2.derive block) merged
    let data2 := writeAt data1 off enc
    (total1 + min size enc.length, data2, kms2, tr1 ++ [(off, enc)])

/-- Full BlockCryptIo write: optional head read-modify-write (decrypt the
existing block under the current key, overlay, rotate via update, re-encrypt,
write back max nbytes (fill + rest) bytes), then the aligned loop and tail. -/
def write (BLK : Nat) (c : Crypter) (kms : Khf) (data : List Nat)
    (offset : Nat) (buf : List Nat) : Nat × List Nat × Khf × List (Nat × List Nat) :=
  if offset % BLK = 0 then writeTail BLK c kms data offset buf
  else
    let block := offset / BLK
    let fill := offset % BLK
    let rest := min buf.length (BLK - fill)
    let off := block * BLK
    let nbytes := min BLK (data.length - off)
    if nbytes = 0 then (0, data, kms, [])
    else
      let tmp := readAt data off nbytes ++ List.replicate (BLK - nbytes) 0
      let dec := c.onetime_decrypt (kms.derive block) tmp
      let merged := dec.take fill ++ buf.take rest ++ dec.drop (fill + rest)
      let kms1 := kms.update block
      let enc := c.onetime_encrypt (kms1.derive block) merged
      let amount := max nbytes (fill + rest)
      let out := enc.take amount
      let data1 := writeAt data off out
      if rest = 0 then (0, data1, kms1, [(off, out)])
      else
        let res := writeTail BLK c kms1 data1 (offset + rest) (buf.drop rest)
        (rest + res.1, res.2.1, res.2.2.1, (off, out) :: res.2.2.2)

/-- State of a BlockCryptIo handle: the underlying object bytes, the key
authority, and the handle position (the offset field of the source). -/
structure St where
  data : List Nat
  kms : Khf
  offset : Nat
deriving DecidableEq

/-- Seek targets, mirroring embedded_io SeekFrom. -/
inductive SeekFrom where
  | start (pos : Nat)
  | fromEnd (pos : Int)
  | current (pos : Int)
deriving DecidableEq

/-- Model of BlockCryptIo seek: the source ignores its argument and returns the
current offset, leaving the handle state untouched. -/
def seek (st : St) (pos : SeekFrom) : Nat × St :=
  (st.offset, st)

/-- State-level read: every exit path of the source sets the handle position to
origin + total, so the successor position is the old position plus the number
of plaintext bytes produced; data and key state are untouched by read. -/
def readSt (BLK : Nat) (c : Crypter) (st : St) (n : Nat) : Option (List Nat × St) :=
  (read BLK c st.kms st.data st.offset n).map
    (fun bs => (bs, { st with offset := st.offset + bs.length }))

/-- State-level write: position moves to origin + total and the data and key
state are replaced by the results of the write. -/
def writeSt (BLK : Nat) (c : Crypter) (st : St) (buf : List Nat) :
    Nat × St × List (Nat × List Nat) :=
  let res := write BLK c st.kms st.data st.offset buf
  (res.1, ⟨res.2.1, res.2.2.1, st.offset + res.1⟩, res.2.2.2)

end BlockCryptIo

namespace BlockRecryptIo

/-!
Model of the recrypt adapter BlockRecryptIo (src/src/io/recrypt.rs).  It is
parameterized by two key authorities; both have been prepared by an external
consolidation step, so the adapter only ever calls derive on them and each
authority is modelled as its pure derive function.  Every call made to either
authority is recorded in a trace.
-/

/-- Calls the recrypt adapter can make on its two key authorities. -/
inductive RCall where
  | currDerive (b : Nat)
  | nextDerive (b : Nat)
  | currUpdate (b : Nat)
  | nextUpdate (b : Nat)
deriving DecidableEq

/-- Tests whether a recorded call is a derive on the current authority. -/
def RCall.isCurrDerive : RCall → Bool
  | .currDerive _ => true
  | _ => false

/-- Tests whether a recorded call is an update on either authority. -/
def RCall.isUpdate : RCall → Bool
  | .currUpdate _ => true
  | .nextUpdate _ => true
  | _ => false

/-- Fuel-indexed while loop of BlockRecryptIo read: decrypts each aligned block
under the key derived from the current authority. -/
def readLoopF (BLK : Nat) (c : Crypter) (curr : Nat → Key) (data : List Nat) :
    Nat → Nat → Nat → List Nat × List RCall
  | 0, _, _ => ([], [])
  | fuel + 1, offset, size =>
    if 0 < size ∧ offset % BLK = 0 then
      let rest := min size BLK
      let nbytes := min rest (data.length - offset)
      if nbytes = 0 then ([], [])
      else
        let tmp := readAt data offset nbytes ++ List.replicate (rest - nbytes) 0
        let dec := c.onetime_decrypt (curr (offset / BLK)) tmp
        let res := readLoopF BLK c curr data fuel (offset + nbytes) (size - nbytes)
        (dec.take nbytes ++ res.1, .currDerive (offset / BLK) :: res.2)
    else ([], [])

/-- Full BlockRecryptIo read: optional unaligned head slice decrypted under the
current authority, then the aligned loop.  none models the same out-of-bounds
panic as BlockCryptIo read for a position past the data inside a partially
filled block. -/
def read (BLK : Nat) (c : Crypter) (curr : Nat → Key) (data : List Nat)
    (offset n : Nat) : Option (List Nat × List RCall) :=
  if offset % BLK = 0 then some (readLoopF BLK c curr data n offset n)
  else
    let block := offset / BLK
    let fill := offset % BLK
    let rest := min n (BLK - fill)
    let off := block * BLK
    let nbytes := min (fill + rest) (data.length - off)
    if nbytes = 0 then some ([], [])
    else if nbytes < fill then none
    else if nbytes - fill = 0 then some ([], [])
    else
      let ar := nbytes - fill
      let tmp := readAt data off nbytes ++ List.replicate (fill + rest - nbytes) 0
      let dec := c.onetime_decrypt (curr block) tmp
      let res := readLoopF BLK c curr data (n - ar) (offset + ar) (n - ar)
      some ((dec.drop fill).take ar ++ res.1, .currDerive block :: res.2)

/-- Fuel-indexed while loop of BlockRecryptIo write: encrypts each whole block
under the key derived from the next authority; no update is ever called. -/
def writeLoopF (BLK : Nat) (c : Crypter) (next : Nat → Key) :
    Nat → List Nat → Nat → List Nat → Nat × List Nat × List RCall × List (Nat × List Nat)
  | 0, data, _, _ => (0, data, [], [])
  | fuel + 1, data, offset, buf =>
    if 0 < buf.length ∧ 0 < buf.length / BLK ∧ offset % BLK = 0 then
      let block := offset / BLK
      let tmp := c.onetime_encrypt (next block) (buf.take BLK)
      let off := block * BLK
      let data1 := writeAt data off tmp
      let res := writeLoopF BLK c next fuel data1 (offset + BLK) (buf.drop BLK)
      (BLK + res.1, res.2.1, .nextDerive block :: res.2.2.1, (off, tmp) :: res.2.2.2)
    else (0, data, [], [])

/-- Aligned part of BlockRecryptIo write: the whole-block loop, then the tail
read-modify-write, which decrypts the existing block under the current
authority, overlays, re-encrypts under the next authority, and writes back
max size actually_read bytes (the source is careful here, unlike the
BlockCryptIo tail). -/
def writeTail (BLK : Nat) (c : Crypter) (curr next : Nat → Key) (data : List Nat)
    (offset : Nat) (buf : List Nat) : Nat × List Nat × List RCall × List (Nat × List Nat) :=
  let res := writeLoopF BLK c next buf.length data offset buf
  let total1 := res.1
  let data1 := res.2.1
  let tr1 := res.2.2.1
  let io1 := res.2.2.2
  let size := buf.length - total1
  if size = 0 then (total1, data1, tr1, io1)
  else
    let offset1 := offset + total1
    let block := offset1 / BLK
    let off := block * BLK
    let actuallyRead := min BLK (data1.length - off)
    let actuallyWrite := max size actuallyRead
    let tmp := readAt data1 off BLK ++ List.replicate (BLK - actuallyRead) 0
    let dec := c.onetime_decrypt (curr block) tmp
    let merged := (buf.drop total1).take size ++ dec.drop size
    let enc := (c.onetime_encrypt (next block) merged).take actuallyWrite
    let data2 := writeAt data1 off enc
    (total1 + min size enc.length, data2,
      tr1 ++ [.currDerive block, .nextDerive block], io1 ++ [(off, enc)])

/-- Full BlockRecryptIo write: optional head read-modify-write decrypting under
the current authority and encrypting under the next authority, then the aligned
loop and tail. -/
def write (BLK : Nat) (c : Crypter) (curr next : Nat → Key) (data : List Nat)
    (offset : Nat) (buf : List Nat) : Nat × List Nat × List RCall × List (Nat × List Nat) :=
  if offset % BLK = 0 then writeTail BLK c curr next data offset buf
  else
    let block := offset / BLK
    let fill := offset % BLK
    let rest := min buf.length (BLK - fill)
    let off := block * BLK
    let nbytes := min BLK (data.length - off)
    if nbytes = 0 then (0, data, [], [])
    else
      let tmp := readAt data off nbytes ++ List.replicate (BLK - nbytes) 0
      let dec := c.onetime_decrypt (curr block) tmp
      let merged := dec.take fill ++ buf.take rest ++ dec.drop (fill + rest)
      let enc := c.onetime_encrypt (next block) merged
      let amount := max nbytes (fill + rest)
      let out := enc.take amount
      let data1 := writeAt data off out
      if rest = 0 then (0, data1, [.currDerive block, .nextDerive block], [(off, out)])
      else
        let res := writeTail BLK c curr next data1 (offset + rest) (buf.drop rest)
        (rest + res.1, res.2.1,
          .currDerive block :: .nextDerive block :: res.2.2.1,
          (off, out) :: res.2.2.2)

end BlockRecryptIo

/-- Error kinds surfaced by Lethe (src/src/error.rs).  The allocator's
exhaustion error (named ObjIdAllocation in src/src/alloc.rs) is folded into the
alloc kind. -/
inductive Err where
  | io
  | missingKhf
  | serde
  | alloc
  | dealloc
  | khf
deriving DecidableEq

/-- Number of 64-bit ids. -/
def W : Nat := 2 ^ 64

/-- ID allocator state (src/src/alloc.rs): a latest cursor and the set of
currently allocated ids, modelled as a list. -/
structure Allocator where
  latest : Nat
  allocated : List Nat
deriving DecidableEq

/-- Scanning loop of Allocator::alloc: starting from the cursor, advance with
wrapping 64-bit increment past allocated ids and return the first free id.  The
source loop re-tests the start only after a full wrap, so it examines each of
the 2^64 ids exactly once; the fuel counts the ids examined. -/
def allocLoop (allocated : List Nat) : Nat → Nat → Option Nat
  | 0, _ => none
  | fuel + 1, cur =>
    if cur ∈ allocated then allocLoop allocated fuel ((cur + 1) % W)
    else some cur

/-- Model of Allocator::alloc: scan forward from latest with wrapping
increment; on success insert the found id and leave latest at it; fail with the
exhaustion error after a full wrap. -/
def Allocator.alloc (a : Allocator) : Except Err (Nat × Allocator) :=
  match allocLoop a.allocated W a.latest with
  | some id => .ok (id, ⟨id, id :: a.allocated⟩)
  | none => .error .alloc

/-- Model of Allocator::dealloc: remove the id from the allocated set. -/
def Allocator.dealloc (a : Allocator) (objid : Nat) : Allocator :=
  ⟨a.latest, a.allocated.filter (fun x => x != objid)⟩

/-!
Serialization codecs.  The source serializes forests, fanout lists, the
allocator and the mappings table with bincode into opaque byte blobs; the model
uses a simple executable length-prefixed encoding with a partial decoder.
-/

/-- Length-prefixed encoding of a list of naturals. -/
def encodeList (l : List Nat) : List Nat :=
  l.length :: l

/-- Decoder for encodeList: returns the decoded list and the remaining bytes. -/
def decodeList (l : List Nat) : Option (List Nat × List Nat) :=
  match l with
  | [] => none
  | n :: rest => if n ≤ rest.length then some (rest.take n, rest.drop n) else none

/-- Length-prefixed encoding of a list of pairs of naturals. -/
def encodePairs (ps : List (Nat × Nat)) : List Nat :=
  ps.length :: (ps.map (fun p => [p.1, p.2])).flatten

/-- Decoder loop for encodePairs. -/
def decodePairsLoop : Nat → List Nat → Option (List (Nat × Nat) × List Nat)
  | 0, l => some ([], l)
  | n + 1, a :: b :: rest =>
    (decodePairsLoop n rest).map (fun r => ((a, b) :: r.1, r.2))
  | _ + 1, _ => none

/-- Decoder for encodePairs. -/
def decodePairs (l : List Nat) : Option (List (Nat × Nat) × List Nat) :=
  match l with
  | [] => none
  | n :: rest => decodePairsLoop n rest

/-- Serialized form of a forest state. -/
def encodeKhf (m : Khf) : List Nat :=
  m.seed :: (encodePairs m.epochs ++ encodeList m.dirty)

/-- Decoder for encodeKhf. -/
def decodeKhf (l : List Nat) : Option (Khf × List Nat) :=
  match l with
  | [] => none
  | seed :: rest =>
    match decodePairs rest with
    | none => none
    | some (eps, rest1) =>
      match decodeList rest1 with
      | none => none
      | some (d, rest2) => some (⟨seed, eps, d⟩, rest2)

/-- Serialized form of the allocator. -/
def encodeAlloc (a : Allocator) : List Nat :=
  a.latest :: encodeList a.allocated

/-- Decoder for encodeAlloc. -/
def decodeAlloc (l : List Nat) : Option (Allocator × List Nat) :=
  match l with
  | [] => none
  | lat :: rest =>
    match decodeList rest with
    | none => none
    | some (al, rest1) => some (⟨lat, al⟩, rest1)

/-- Map entry for one external object id: where its ciphertext lives (map_id)
and where its forest blob lives (khf_id). -/
structure MapEntry where
  map_id : Nat
  khf_id : Nat
deriving DecidableEq

/-- Serialized form of the mappings table. -/
def encodeMappings (ms : List (Nat × MapEntry)) : List Nat :=
  ms.length :: (ms.map (fun p => [p.1, p.2.map_id, p.2.khf_id])).flatten

/-- Decoder loop for encodeMappings. -/
def decodeMappingsLoop : Nat → List Nat → Option (List (Nat × MapEntry) × List Nat)
  | 0, l => some ([], l)
  | n + 1, a :: b :: c :: rest =>
    (decodeMappingsLoop n rest).map (fun r => ((a, ⟨b, c⟩) :: r.1, r.2))
  | _ + 1, _ => none

/-- Decoder for encodeMappings. -/
def decodeMappings (l : List Nat) : Option (List (Nat × MapEntry) × List Nat) :=
  match l with
  | [] => none
  | n :: rest => decodeMappingsLoop n rest

/-!
Model of the Lethe core (src/src/lib.rs).  The backing object store is a map
from 64-bit id to byte contents; handles over it perform plain positional reads
and full-length writes.  The enclave is a byte store.  The RNG collaborator is
modelled as a deterministic byte stream consumed through a counter carried in
the state, so each fill_bytes call yields fresh bytes.
-/

/-- Backing object store: an association of object ids to byte contents. -/
abbrev Store := List (Nat × List Nat)

/-- Contents of a backing object, if it exists. -/
def storeGet (s : Store) (id : Nat) : Option (List Nat) :=
  s.lookup id

/-- Replaces (or creates) the contents of a backing object. -/
def storeSet (s : Store) (id : Nat) (bs : List Nat) : Store :=
  (id, bs) :: s.filter (fun p => p.1 != id)

/-- Byte stream of the RNG collaborator. -/
def rngByte (i : Nat) : Nat :=
  (i * 37 + 11) % 256

/-- Model of fill_bytes: the next n bytes of the RNG stream from counter ctr. -/
def rngBytes (ctr n : Nat) : List Nat :=
  (List.range n).map (fun j => rngByte (ctr + j))


/-- Reserved backing object ids (src/src/lib.rs lines 28 to 31). -/
def MASTER_KHF_OBJID : Nat := 0

/-- Reserved id of the object-Khf fanouts blob. -/
def OBJECT_KHF_FANOUTS_OBJID : Nat := 1

/-- Reserved id of the allocator blob. -/
def ALLOCATOR_OBJID : Nat := 2

/-- Reserved id of the mappings blob. -/
def MAPPINGS_OBJID : Nat := 3

/-- State of a Lethe instance (the fields of struct Lethe in src/src/lib.rs),
together with the modelled external world it owns: the enclave bytes, the
backing store, and the RNG counter. -/
structure LetheSt where
  master_key : List Nat
  master_khf : Khf
  object_khfs : List (Nat × Khf)
  object_khf_fanouts : List Nat
  allocator : Allocator
  mappings : List (Nat × MapEntry)
  enclave : List Nat
  storage : Store
  rngCtr : Nat
deriving DecidableEq

/-- Model of load_khf (src/src/lib.rs lines 96 to 118): look up the mapping,
return early if the object Khf is cached, otherwise derive the blob key from
the master Khf at khf_id, open a backing read handle AT map_id, decrypt the
whole object through CryptIo, deserialize, and insert into the cache.  A
deserialization failure surfaces through the khf error kind, since the source
propagates Khf::load errors. -/
def load_khf (cr : Crypter) (L : LetheSt) (objid : Nat) : Except Err LetheSt :=
  match L.mappings.lookup objid with
  | none => .error .missingKhf
  | some entry =>
    if (L.object_khfs.lookup entry.khf_id).isSome then .ok L
    else
      let key := L.master_khf.derive entry.khf_id
      match storeGet L.storage entry.map_id with
      | none => .error .io
      | some blob =>
        match decodeKhf (cr.onetime_decrypt key blob) with
        | none => .error .khf
        | some (khf, _) =>
          .ok { L with object_khfs := (entry.khf_id, khf) :: L.object_khfs }

/-- Events emitted by persist_state, in program order: an encrypted dirty
object-Khf blob written to a backing object, the regeneration of the master
key, an encrypted blob written to a reserved backing object, the master-key
write into the enclave, and the forwarded persist on the backing store. -/
inductive PEvent where
  | blobWrite (id : Nat) (bytes : List Nat)
  | regenKey
  | reservedWrite (id : Nat) (bytes : List Nat)
  | enclaveWrite (off : Nat) (bytes : List Nat)
  | forwardPersist
deriving DecidableEq

/-- Dirty-blob phase of persist_state: for each dirty khf_id, serialize the
cached object Khf, derive its key from the (pre-rotation) master Khf, encrypt
through CryptIo and write to backing object khf_id.  none models the source
panicking on the indexing object_khfs[khf_id] when the forest is not cached. -/
def persistBlobs (cr : Crypter) (mkhf : Khf) (okhfs : List (Nat × Khf)) :
    List Nat → Store → Option (Store × List PEvent)
  | [], st => some (st, [])
  | id :: rest, st =>
    match okhfs.lookup id with
    | none => none
    | some khf =>
      let enc := cr.onetime_encrypt (mkhf.derive id) (encodeKhf khf)
      let st1 := storeSet st id (writeAt ((storeGet st id).getD []) 0 enc)
      (persistBlobs cr mkhf okhfs rest st1).map
        (fun r => (r.1, .blobWrite id enc :: r.2))

/-- Model of persist_state (src/src/lib.rs lines 271 to 347), with E the key
size: commit the master Khf and write every dirty object-Khf blob under a key
derived from the pre-rotation master Khf; generate a fresh master key; write
the master Khf, the object-Khf fanouts, the allocator and the mappings blobs
under the new master key to the four reserved ids; write the new master key to
the enclave at offset 0; forward persist_state to the backing store. -/
def persist_state (E : Nat) (cr : Crypter) (L : LetheSt) :
    Option (LetheSt × List PEvent) :=
  let com := L.master_khf.commit
  match persistBlobs cr com.2 L.object_khfs com.1 L.storage with
  | none => none
  | some (st1, tr1) =>
    let newKey := rngBytes L.rngCtr E
    let encM := cr.onetime_encrypt newKey (encodeKhf com.2)
    let st2 := storeSet st1 MASTER_KHF_OBJID
      (writeAt ((storeGet st1 MASTER_KHF_OBJID).getD []) 0 encM)
    let encF := cr.onetime_encrypt newKey (encodeList L.object_khf_fanouts)
    let st3 := storeSet st2 OBJECT_KHF_FANOUTS_OBJID
      (writeAt ((storeGet st2 OBJECT_KHF_FANOUTS_OBJID).getD []) 0 encF)
    let encA := cr.onetime_encrypt newKey (encodeAlloc L.allocator)
    let st4 := storeSet st3 ALLOCATOR_OBJID
      (writeAt ((storeGet st3 ALLOCATOR_OBJID).getD []) 0 encA)
    let encMp := cr.onetime_encrypt newKey (encodeMappings L.mappings)
    let st5 := storeSet st4 MAPPINGS_OBJID
      (writeAt ((storeGet st4 MAPPINGS_OBJID).getD []) 0 encMp)
    let enclave1 := writeAt L.enclave 0 newKey
    some
      ({ L with
          master_key := newKey
          master_khf := com.2
          storage := st5
          enclave := enclave1
          rngCtr := L.rngCtr + E },
        tr1 ++
          [.regenKey, .reservedWrite MASTER_KHF_OBJID encM,
            .reservedWrite OBJECT_KHF_FANOUTS_OBJID encF,
            .reservedWrite ALLOCATOR_OBJID encA,
            .reservedWrite MAPPINGS_OBJID encMp,
            .enclaveWrite 0 newKey, .forwardPersist])

/-- Fallible phase of load_state (src/src/lib.rs lines 349 to 413), with E
the key size: forward load_state to the backing store, read exactly E bytes of
master key from the enclave at offset 0, then read each of the four reserved
blobs in order, decrypt it under that key through CryptIo and deserialize it;
the first failure aborts the whole sequence. -/
def load_state_reads (E : Nat) (cr : Crypter) (L : LetheSt) :
    Except Err (List Nat × Khf × List Nat × Allocator × List (Nat × MapEntry)) :=
  if E ≤ L.enclave.length then
    let master_key := L.enclave.take E
    match storeGet L.storage MASTER_KHF_OBJID with
    | none => .error .io
    | some b0 =>
      match decodeKhf (cr.onetime_decrypt master_key b0) with
      | none => .error .serde
      | some (mk, _) =>
        match storeGet L.storage OBJECT_KHF_FANOUTS_OBJID with
        | none => .error .io
        | some b1 =>
          match decodeList (cr.onetime_decrypt master_key b1) with
          | none => .error .serde
          | some (fan, _) =>
            match storeGet L.storage ALLOCATOR_OBJID with
            | none => .error .io
            | some b2 =>
              match decodeAlloc (cr.onetime_decrypt master_key b2) with
              | none => .error .serde
              | some (al, _) =>
                match storeGet L.storage MAPPINGS_OBJID with
                | none => .error .io
                | some b3 =>
                  match decodeMappings (cr.onetime_decrypt master_key b3) with
                  | none => .error .serde
                  | some (mp, _) => .ok (master_key, mk, fan, al, mp)
  else .error .io

/-- Model of load_state (src/src/lib.rs lines 349 to 422): run the fallible
reads and deserializations, and only when every one of them has succeeded
assign the fields of the instance (source lines 414 to 419).  The pair
returned is the instance state after the call together with the error, if any:
the source takes self by mutable reference, so on error the caller observes
the input state. -/
def load_state (E : Nat) (cr : Crypter) (L : LetheSt) : LetheSt × Option Err :=
  match load_state_reads E cr L with
  | .error e => (L, some e)
  | .ok (mk, khf, fan, al, mp) =>
    ({ L with
        master_key := mk
        master_khf := khf
        object_khf_fanouts := fan
        allocator := al
        mappings := mp }, none)

/-- Model of truncate (src/src/lib.rs lines 242 to 269), with D the block
size.  When size is not a multiple of D, the source opens an rw_handle (which
lazily loads the Khf, marks khf_id dirty in the master Khf, and starts at
offset 0), seeks the handle to the final partial block, reads size mod D bytes
and writes them back; but BlockCryptIo seek ignores its argument, so the bytes
actually come from the start of the object and are rewritten at the position
the read left the handle at.  It then truncates the forest to ceil(size / D)
keys and calls truncate on the backing store with the EXTERNAL objid.  Returns
the state after the call, the trace of backing truncate calls (id, size), and
the error, if any.  A read that panics in the source is surfaced as an io
error here; the claims evaluated against this model avoid that case. -/
def truncate (D : Nat) (cr : Crypter) (L : LetheSt) (objid size : Nat) :
    LetheSt × List (Nat × Nat) × Option Err :=
  let extra := size % D
  let afterRmw : LetheSt × Option Err :=
    if extra > 0 then
      match load_khf cr L objid with
      | .error e => (L, some e)
      | .ok L1 =>
        match L1.mappings.lookup objid with
        | none => (L1, some .missingKhf)
        | some entry =>
          match L1.object_khfs.lookup entry.khf_id with
          | none => (L1, some .missingKhf)
          | some khf =>
            match storeGet L1.storage entry.map_id with
            | none => (L1, some .io)
            | some data =>
              let L2 := { L1 with master_khf := L1.master_khf.update entry.khf_id }
              let st0 : BlockCryptIo.St := ⟨data, khf, 0⟩
              let st1 := (BlockCryptIo.seek st0 (.start ((size / D) * D))).2
              match BlockCryptIo.readSt D cr st1 extra with
              | none => (L2, some .io)
              | some (buf, st2) =>
                let st3 := (BlockCryptIo.seek st2 (.start ((size / D) * D))).2
                let res := BlockCryptIo.writeSt D cr st3 buf
                let st4 := res.2.1
                (({ L2 with
                    storage := storeSet L2.storage entry.map_id st4.data
                    object_khfs :=
                      (entry.khf_id, st4.kms) ::
                        L2.object_khfs.filter (fun p => p.1 != entry.khf_id) },
                  none))
    else (L, none)
  match afterRmw with
  | (L2, some e) => (L2, [], some e)
  | (L2, none) =>
    let keys := (size + (D - 1)) / D
    match load_khf cr L2 objid with
    | .error e => (L2, [], some e)
    | .ok L3 =>
      match L3.mappings.lookup objid with
      | none => (L3, [], some .missingKhf)
      | some entry =>
        match L3.object_khfs.lookup entry.khf_id with
        | none => (L3, [], some .missingKhf)
        | some khf =>
          let L4 := { L3 with
            object_khfs :=
              (entry.khf_id, khf.truncate keys) ::
                L3.object_khfs.filter (fun p => p.1 != entry.khf_id) }
          match storeGet L4.storage objid with
          | none => (L4, [(objid, size)], some .io)
          | some d =>
            ({ L4 with storage := storeSet L4.storage objid (d.take size) },
              [(objid, size)], none)


/-- Concrete keystream used by the concrete evaluations below. -/
def cexCrypter : Crypter :=
  ⟨fun k i => (k.sum * 7 + i * 3 + 1) % 256⟩

/-- Concrete forest state used by the concrete evaluations below. -/
def cexKhf : Khf :=
  ⟨5, [], []⟩


/-- Concrete allocator used by the witness below. -/
def cexAllocator : Allocator :=
  ⟨0, [0, 1]⟩


/-- Decidable equality of Except results, used by the concrete evaluations. -/
def exceptDecEq {e a : Type} [DecidableEq e] [DecidableEq a] :
    DecidableEq (Except e a) := fun x y =>
  match x, y with
  | .ok u, .ok v =>
      if h : u = v then .isTrue (by rw [h]) else .isFalse (by simp [h])
  | .error u, .error v =>
      if h : u = v then .isTrue (by rw [h]) else .isFalse (by simp [h])
  | .ok _, .error _ => .isFalse (by simp)
  | .error _, .ok _ => .isFalse (by simp)

instance {e a : Type} [DecidableEq e] [DecidableEq a] : DecidableEq (Except e a) :=
  exceptDecEq

/-- Result of writing a single byte through a fresh BlockCryptIo handle over an
empty object with block size 4. -/
def c1Write : Nat × List Nat × Khf × List (Nat × List Nat) :=
  BlockCryptIo.write 4 cexCrypter cexKhf [] 0 [97]

/-- Lethe state for the persist and reload evaluations: external object 7 maps
to map_id 4 and khf_id 5, its forest is cached and marked dirty in the master
forest, and the user-data object 4 exists in the backing store and is empty. -/
def c2St : LetheSt :=
  { master_key := [0, 0]
    master_khf := ⟨9, [], [5]⟩
    object_khfs := [(5, ⟨7, [(0, 2)], []⟩)]
    object_khf_fanouts := [4, 4, 4, 4]
    allocator := ⟨6, [0, 1, 2, 3, 4, 5]⟩
    mappings := [(7, ⟨4, 5⟩)]
    enclave := [0, 0]
    storage := [(4, [])]
    rngCtr := 0 }

/-- Result of persist_state on c2St with key size 2. -/
def c2Res : Option (LetheSt × List PEvent) :=
  persist_state 2 cexCrypter c2St

/-- Committed state with the object-Khf cache cleared, as for a freshly loaded
instance whose object forests are lazily reloaded on first use. -/
def c2Cleared : LetheSt :=
  { (c2Res.getD (c2St, [])).1 with object_khfs := [] }

/-- Committed state and trace used by the persist-order witness. -/
def c5Pair : LetheSt × List PEvent :=
  c2Res.getD (c2St, [])

/-- Lethe state whose backing store lacks the reserved blobs, making
load_state fail. -/
def c3FailSt : LetheSt :=
  { master_key := [1]
    master_khf := ⟨0, [], []⟩
    object_khfs := []
    object_khf_fanouts := []
    allocator := ⟨0, []⟩
    mappings := []
    enclave := [1, 2]
    storage := []
    rngCtr := 0 }

/-- Forest keying the truncate evaluation object. -/
def c6Khf : Khf :=
  ⟨3, [], []⟩

/-- Two-block ciphertext of the truncate evaluation object: plaintext bytes
10 to 13 in block 0 and 14 to 17 in block 1, each under its per-block key. -/
def c6Data : List Nat :=
  cexCrypter.onetime_encrypt (c6Khf.derive 0) [10, 11, 12, 13] ++
    cexCrypter.onetime_encrypt (c6Khf.derive 1) [14, 15, 16, 17]

/-- Lethe state for the truncate evaluation: object 7 maps to map_id 4 and
khf_id 5 and its 8-byte ciphertext lives at backing object 4. -/
def c6St : LetheSt :=
  { master_key := [0, 0]
    master_khf := ⟨9, [], []⟩
    object_khfs := [(5, c6Khf)]
    object_khf_fanouts := [4, 4, 4, 4]
    allocator := ⟨6, [0, 1, 2, 3, 4, 5]⟩
    mappings := [(7, ⟨4, 5⟩)]
    enclave := [0, 0]
    storage := [(4, c6Data)]
    rngCtr := 0 }

/-- Result of truncate(7, 6) with block size 4 on c6St. -/
def c6Res : LetheSt × List (Nat × Nat) × Option Err :=
  truncate 4 cexCrypter c6St 7 6


/-!
Lemmas and theorems.
-/

theorem length_xorKs (c : Crypter) (k : Key) (i : Nat) (p : List Nat) :
    (xorKs c k i p).length = p.length := by
  induction p generalizing i with
  | nil => rfl
  | cons b bs ih => simp [xorKs, ih]
theorem xorKs_xorKs (c : Crypter) (k : Key) (i : Nat) (p : List Nat) :
    xorKs c k i (xorKs c k i p) = p := by
  induction p generalizing i with
  | nil => rfl
  | cons b bs ih =>
      simp only [xorKs, ih]
      rw [Nat.xor_cancel_right]
theorem xorKs_take (c : Crypter) (k : Key) (i n : Nat) (p : List Nat) :
    xorKs c k i (p.take n) = (xorKs c k i p).take n := by
  induction p generalizing i n with
  | nil => simp [xorKs]
  | cons b bs ih =>
      cases n with
      | zero => simp [xorKs]
      | succ m => simp [xorKs, ih]
theorem xorKs_append (c : Crypter) (k : Key) (i : Nat) (p q : List Nat) :
    xorKs c k i (p ++ q) = xorKs c k i p ++ xorKs c k (i + p.length) q := by
  induction p generalizing i with
  | nil => simp [xorKs]
  | cons b bs ih =>
      simp only [List.cons_append, xorKs, List.append_eq, ih, List.length_cons]
      rw [show i + (bs.length + 1) = i + 1 + bs.length by omega]
theorem length_onetime_encrypt (c : Crypter) (k : Key) (p : List Nat) :
    (c.onetime_encrypt k p).length = p.length :=
  length_xorKs c k 0 p
theorem length_onetime_decrypt (c : Crypter) (k : Key) (p : List Nat) :
    (c.onetime_decrypt k p).length = p.length :=
  length_xorKs c k 0 p
theorem onetime_decrypt_encrypt (c : Crypter) (k : Key) (p : List Nat) :
    c.onetime_decrypt k (c.onetime_encrypt k p) = p :=
  xorKs_xorKs c k 0 p
theorem onetime_decrypt_take (c : Crypter) (k : Key) (n : Nat) (p : List Nat) :
    c.onetime_decrypt k (p.take n) = (c.onetime_decrypt k p).take n :=
  xorKs_take c k 0 n p
theorem length_readAt (data : List Nat) (pos n : Nat) :
    (readAt data pos n).length = min n (data.length - pos) := by
  simp [readAt]
theorem length_writeAt (data : List Nat) (pos : Nat) (bs : List Nat) :
    (writeAt data pos bs).length = max data.length (pos + bs.length) := by
  simp [writeAt]
  omega
theorem length_rngBytes (ctr n : Nat) : (rngBytes ctr n).length = n := by
  simp [rngBytes]

theorem W_pos : 0 < W :=
  Nat.pos_pow_of_pos 64 (by norm_num)

theorem allocLoop_none_iff (allocated : List Nat) (fuel cur : Nat) (hcur : cur < W) :
    allocLoop allocated fuel cur = none ↔ ∀ k < fuel, (cur + k) % W ∈ allocated := by
  induction fuel generalizing cur with
  | zero =>
      constructor
      · intro _ k hk
        exact absurd hk (Nat.not_lt_zero k)
      · intro _
        rfl
  | succ fuel ih =>
      by_cases hmem : cur ∈ allocated
      · have hcur1 : (cur + 1) % W < W := Nat.mod_lt _ W_pos
        rw [allocLoop, if_pos hmem, ih ((cur + 1) % W) hcur1]
        constructor
        · intro h k hk
          rcases Nat.eq_zero_or_pos k with hk0 | hk0
          · subst hk0
            rw [Nat.add_zero, Nat.mod_eq_of_lt hcur]
            exact hmem
          · obtain ⟨j, rfl⟩ := Nat.exists_eq_add_of_lt hk0
            have := h j (by omega)
            rw [Nat.mod_add_mod] at this
            rw [show cur + (0 + j + 1) = cur + 1 + j by omega]
            exact this
        · intro h k hk
          have := h (k + 1) (by omega)
          rw [Nat.mod_add_mod, show cur + 1 + k = cur + (k + 1) by omega]
          exact this
      · rw [allocLoop, if_neg hmem]
        constructor
        · intro h
          exact absurd h (by simp)
        · intro h
          have := h 0 (by omega)
          rw [Nat.add_zero, Nat.mod_eq_of_lt hcur] at this
          exact absurd this hmem

theorem allocLoop_some (allocated : List Nat) (fuel cur id : Nat) (hcur : cur < W)
    (h : allocLoop allocated fuel cur = some id) :
    id ∉ allocated ∧ ∃ k, k < fuel ∧ id = (cur + k) % W ∧
      ∀ j < k, (cur + j) % W ∈ allocated := by
  induction fuel generalizing cur with
  | zero => exact absurd h (by simp [allocLoop])
  | succ fuel ih =>
      by_cases hmem : cur ∈ allocated
      · rw [allocLoop, if_pos hmem] at h
        have hcur1 : (cur + 1) % W < W := Nat.mod_lt _ W_pos
        obtain ⟨hnot, k, hk, hid, hall⟩ := ih ((cur + 1) % W) hcur1 h
        refine ⟨hnot, k + 1, by omega, ?_, ?_⟩
        · rw [hid, Nat.mod_add_mod, show cur + 1 + k = cur + (k + 1) by omega]
        · intro j hj
          rcases Nat.eq_zero_or_pos j with hj0 | hj0
          · subst hj0
            rw [Nat.add_zero, Nat.mod_eq_of_lt hcur]
            exact hmem
          · obtain ⟨i, rfl⟩ := Nat.exists_eq_add_of_lt hj0
            have := hall i (by omega)
            rw [Nat.mod_add_mod] at this
            rw [show cur + (0 + i + 1) = cur + 1 + i by omega]
            exact this
      · rw [allocLoop, if_neg hmem] at h
        obtain rfl : cur = id := by
          injection h
        exact ⟨hmem, 0, Nat.succ_pos fuel,
          by rw [Nat.add_zero, Nat.mod_eq_of_lt hcur],
          fun j hj => absurd hj (Nat.not_lt_zero j)⟩

theorem exists_mod_shift (start i : Nat) (hs : start < W) (hi : i < W) :
    ∃ k, k < W ∧ (start + k) % W = i := by
  refine ⟨(i + W - start) % W, Nat.mod_lt _ W_pos, ?_⟩
  rw [Nat.add_mod_mod, show start + (i + W - start) = i + W by omega,
    Nat.add_mod_right, Nat.mod_eq_of_lt hi]

/-- C9: Allocator::alloc scans forward from the latest cursor with wrapping
64-bit increment; on success it returns the first id not in the allocated set,
after inserting it into the set and leaving latest at that id; it fails with
the exhaustion error if and only if all 2^64 ids are already allocated. -/
theorem c9_alloc_spec (a : Allocator) (hlat : a.latest < W) :
    ((a.alloc = .error .alloc) ↔ ∀ i < W, i ∈ a.allocated)
    ∧ ∀ id a2, a.alloc = .ok (id, a2) →
        id ∉ a.allocated ∧ a2.latest = id ∧ a2.allocated = id :: a.allocated ∧
        ∃ k, k < W ∧ id = (a.latest + k) % W ∧
          ∀ j < k, (a.latest + j) % W ∈ a.allocated := by
  cases h : allocLoop a.allocated W a.latest with
  | none =>
      have hall := (allocLoop_none_iff a.allocated W a.latest hlat).mp h
      constructor
      · constructor
        · intro _ i hi
          obtain ⟨k, hk, hEq⟩ := exists_mod_shift a.latest i hlat hi
          rw [← hEq]
          exact hall k hk
        · intro _
          simp [Allocator.alloc, h]
      · intro id a2 hok
        simp [Allocator.alloc, h] at hok
  | some id0 =>
      obtain ⟨hnot, k, hk, hid, hmem⟩ := allocLoop_some a.allocated W a.latest id0 hlat h
      constructor
      · constructor
        · intro habs
          simp [Allocator.alloc, h] at habs
        · intro hall
          have hidlt : id0 < W := by
            rw [hid]
            exact Nat.mod_lt _ W_pos
          exact absurd (hall id0 hidlt) hnot
      · intro id a2 hok
        simp only [Allocator.alloc, h, Except.ok.injEq, Prod.mk.injEq] at hok
        obtain ⟨rfl, rfl⟩ := hok
        exact ⟨hnot, rfl, rfl, k, hk, hid, hmem⟩

/-- Witness for c9_alloc_spec: a concrete allocator with cursor 0 and ids 0 and
1 allocated satisfies the hypothesis and the characterization. -/
theorem c9_alloc_spec_witness :
    cexAllocator.latest < W ∧
      (((cexAllocator.alloc = .error .alloc) ↔ ∀ i < W, i ∈ cexAllocator.allocated)
      ∧ ∀ id a2, cexAllocator.alloc = .ok (id, a2) →
          id ∉ cexAllocator.allocated ∧ a2.latest = id ∧
          a2.allocated = id :: cexAllocator.allocated ∧
          ∃ k, k < W ∧ id = (cexAllocator.latest + k) % W ∧
            ∀ j < k, (cexAllocator.latest + j) % W ∈ cexAllocator.allocated) :=
  ⟨by norm_num [cexAllocator, W],
    c9_alloc_spec cexAllocator (by norm_num [cexAllocator, W])⟩

/-- C10: seek on a BlockCryptIo handle returns the current offset and leaves
the handle state unchanged for every seek argument, so the position can only be
moved by read or write themselves. -/
theorem c10_seek_noop (st : BlockCryptIo.St) (pos : BlockCryptIo.SeekFrom) :
    BlockCryptIo.seek st pos = (st.offset, st) :=
  rfl

theorem readLoopF_eof (BLK : Nat) (c : Crypter) (kms : Khf) (data : List Nat)
    (fuel offset size : Nat) (h : data.length ≤ offset) :
    BlockCryptIo.readLoopF BLK c kms data fuel offset size = [] := by
  cases fuel with
  | zero => rfl
  | succ f => simp [BlockCryptIo.readLoopF, Nat.sub_eq_zero_of_le h]

/-- C7 (amended): a read through BlockCryptIo whose position is at the end of
the data, or past the end with the start of the position's block also at or
past the end (in particular any block-aligned position), returns 0 bytes and
leaves the handle state, including the position, unchanged.  A position
strictly past the end inside a block that still holds data panics in the
source instead of returning 0; such positions are unreachable through the
adapter interface, whose seek never moves the position. -/
theorem c7_read_eof_returns_zero (BLK : Nat) (c : Crypter) (st : BlockCryptIo.St)
    (n : Nat) (hB : 0 < BLK) (heof : st.data.length ≤ st.offset)
    (hside : st.offset = st.data.length ∨ st.offset % BLK = 0 ∨
      st.data.length ≤ st.offset / BLK * BLK) :
    BlockCryptIo.readSt BLK c st n = some ([], st) := by
  by_cases hal : st.offset % BLK = 0
  · have hloop : BlockCryptIo.readLoop BLK c st.kms st.data st.offset n = [] :=
      readLoopF_eof BLK c st.kms st.data n st.offset n heof
    simp [BlockCryptIo.readSt, BlockCryptIo.read, hal, hloop]
  · have hfill : 0 < st.offset % BLK := Nat.pos_of_ne_zero hal
    have hdm : st.offset / BLK * BLK + st.offset % BLK = st.offset := by
      rw [Nat.mul_comm]
      exact Nat.div_add_mod st.offset BLK
    rcases hside with hEq | hal2 | hblk
    · -- position exactly at the end of the data
      have hsub : st.data.length - st.offset / BLK * BLK = st.offset % BLK := by
        omega
      have hnb : min (st.offset % BLK + min n (BLK - st.offset % BLK))
          (st.data.length - st.offset / BLK * BLK) = st.offset % BLK := by
        rw [hsub]
        omega
      simp only [BlockCryptIo.readSt, BlockCryptIo.read, if_neg hal, hnb]
      simp [Nat.sub_self, hal]
    · exact absurd hal2 hal
    · -- the whole block holding the position is past the end of the data
      have hnb : min (st.offset % BLK + min n (BLK - st.offset % BLK))
          (st.data.length - st.offset / BLK * BLK) = 0 := by
        have : st.data.length - st.offset / BLK * BLK = 0 := Nat.sub_eq_zero_of_le hblk
        rw [this]
        omega
      simp only [BlockCryptIo.readSt, BlockCryptIo.read, if_neg hal, hnb]
      simp

/-- Witness for c7_read_eof_returns_zero: a 2-byte object read at position 2
(at the end, not block-aligned) returns 0 bytes and leaves the state alone. -/
theorem c7_read_eof_returns_zero_witness :
    ((0 : Nat) < 4 ∧
      (BlockCryptIo.St.mk [9, 9] cexKhf 2).data.length ≤
        (BlockCryptIo.St.mk [9, 9] cexKhf 2).offset ∧
      ((BlockCryptIo.St.mk [9, 9] cexKhf 2).offset =
          (BlockCryptIo.St.mk [9, 9] cexKhf 2).data.length ∨
        (BlockCryptIo.St.mk [9, 9] cexKhf 2).offset % 4 = 0 ∨
        (BlockCryptIo.St.mk [9, 9] cexKhf 2).data.length ≤
          (BlockCryptIo.St.mk [9, 9] cexKhf 2).offset / 4 * 4)) ∧
    BlockCryptIo.readSt 4 cexCrypter ⟨[9, 9], cexKhf, 2⟩ 5 =
      some ([], ⟨[9, 9], cexKhf, 2⟩) :=
  ⟨⟨by decide, by decide, by decide⟩,
    c7_read_eof_returns_zero 4 cexCrypter ⟨[9, 9], cexKhf, 2⟩ 5
      (by decide) (by decide) (by decide)⟩

/-- C7 counterexample: with block size 4 and a 2-byte object, a read of 1 byte
at position 3 is strictly past the end inside a block that still holds data;
the usize subtraction nbytes - fill wraps and the source panics on the
subsequent out-of-bounds slice instead of returning 0 with the position
unchanged, refuting the claim as stated for arbitrary positions. -/
theorem c7_read_past_eof_cex :
    BlockCryptIo.readSt 4 cexCrypter ⟨[7, 7], cexKhf, 3⟩ 1 = none := by
  decide

theorem writeTail_nil (BLK : Nat) (c : Crypter) (kms : Khf) (data : List Nat)
    (offset : Nat) :
    BlockCryptIo.writeTail BLK c kms data offset [] = (0, data, kms, []) :=
  rfl

/-- C4: a write through BlockCryptIo whose start offset is not block-aligned
reads the existing ciphertext block, decrypts it under the current key
derive(block), overlays the new plaintext bytes over the sub-range starting at
fill, rotates the key with update(block), encrypts the merged block under the
post-update key, and writes back exactly max nbytes (fill + rest) bytes at the
block start, where nbytes is the number of existing bytes read, fill the
in-block start and rest the head length; when the whole buffer fits in the head
block, the final key-authority state is exactly kms.update block. -/
theorem c4_write_head_rmw (BLK : Nat) (c : Crypter) (kms : Khf) (data : List Nat)
    (offset : Nat) (buf : List Nat)
    (hal : offset % BLK ≠ 0)
    (hnb : 0 < min BLK (data.length - offset / BLK * BLK)) :
    let block := offset / BLK
    let fill := offset % BLK
    let rest := min buf.length (BLK - fill)
    let off := block * BLK
    let nbytes := min BLK (data.length - off)
    let dec := c.onetime_decrypt (kms.derive block)
      (readAt data off nbytes ++ List.replicate (BLK - nbytes) 0)
    let merged := dec.take fill ++ buf.take rest ++ dec.drop (fill + rest)
    let out := (c.onetime_encrypt ((kms.update block).derive block) merged).take
      (max nbytes (fill + rest))
    ((BlockCryptIo.write BLK c kms data offset buf).2.2.2).head? = some (off, out)
    ∧ out.length = max nbytes (fill + rest)
    ∧ (buf.length ≤ BLK - fill →
        (BlockCryptIo.write BLK c kms data offset buf).2.2.1 = kms.update block) := by
  have hB : 0 < BLK := by omega
  have hfill : offset % BLK < BLK := Nat.mod_lt offset hB
  have hout : ((c.onetime_encrypt ((kms.update (offset / BLK)).derive (offset / BLK))
      ((c.onetime_decrypt (kms.derive (offset / BLK))
          (readAt data (offset / BLK * BLK) (min BLK (data.length - offset / BLK * BLK)) ++
            List.replicate (BLK - min BLK (data.length - offset / BLK * BLK)) 0)).take
          (offset % BLK) ++
        buf.take (min buf.length (BLK - offset % BLK)) ++
        (c.onetime_decrypt (kms.derive (offset / BLK))
          (readAt data (offset / BLK * BLK) (min BLK (data.length - offset / BLK * BLK)) ++
            List.replicate (BLK - min BLK (data.length - offset / BLK * BLK)) 0)).drop
          (offset % BLK + min buf.length (BLK - offset % BLK)))).take
      (max (min BLK (data.length - offset / BLK * BLK))
        (offset % BLK + min buf.length (BLK - offset % BLK)))).length
      = max (min BLK (data.length - offset / BLK * BLK))
        (offset % BLK + min buf.length (BLK - offset % BLK)) := by
    simp [length_onetime_encrypt, length_onetime_decrypt, length_readAt]
    omega
  refine ⟨?_, hout, ?_⟩
  · simp only [BlockCryptIo.write, if_neg hal]
    rw [if_neg (by omega)]
    by_cases hr : min buf.length (BLK - offset % BLK) = 0
    · rw [if_pos hr]
      rfl
    · rw [if_neg hr]
      rfl
  · intro hble
    have hrest : min buf.length (BLK - offset % BLK) = buf.length := by omega
    simp only [BlockCryptIo.write, if_neg hal]
    rw [if_neg (by omega)]
    by_cases hr : min buf.length (BLK - offset % BLK) = 0
    · rw [if_pos hr]
    · rw [if_neg hr]
      rw [hrest, List.drop_length, writeTail_nil]

/-- Witness for c4_write_head_rmw: block size 4, a 4-byte object, a 1-byte
write at offset 1. -/
theorem c4_write_head_rmw_witness :
    ((1 : Nat) % 4 ≠ 0 ∧ 0 < min 4 (([1, 2, 3, 4] : List Nat).length - 1 / 4 * 4)) ∧
    (let block := 1 / 4
     let fill := 1 % 4
     let rest := min ([(99 : Nat)] : List Nat).length (4 - fill)
     let off := block * 4
     let nbytes := min 4 (([1, 2, 3, 4] : List Nat).length - off)
     let dec := cexCrypter.onetime_decrypt (cexKhf.derive block)
       (readAt [1, 2, 3, 4] off nbytes ++ List.replicate (4 - nbytes) 0)
     let merged := dec.take fill ++ ([(99 : Nat)] : List Nat).take rest ++
       dec.drop (fill + rest)
     let out := (cexCrypter.onetime_encrypt ((cexKhf.update block).derive block)
       merged).take (max nbytes (fill + rest))
     ((BlockCryptIo.write 4 cexCrypter cexKhf [1, 2, 3, 4] 1 [99]).2.2.2).head? =
         some (off, out)
     ∧ out.length = max nbytes (fill + rest)
     ∧ (([(99 : Nat)] : List Nat).length ≤ 4 - fill →
         (BlockCryptIo.write 4 cexCrypter cexKhf [1, 2, 3, 4] 1 [99]).2.2.1 =
           cexKhf.update block)) :=
  ⟨⟨by decide, by decide⟩,
    c4_write_head_rmw 4 cexCrypter cexKhf [1, 2, 3, 4] 1 [99] (by decide) (by decide)⟩

theorem recrypt_readLoopF_calls (BLK : Nat) (c : Crypter) (curr : Nat → Key)
    (data : List Nat) (fuel : Nat) : ∀ offset size,
    ((BlockRecryptIo.readLoopF BLK c curr data fuel offset size).2).all
      BlockRecryptIo.RCall.isCurrDerive = true := by
  induction fuel with
  | zero =>
      intro offset size
      rfl
  | succ f ih =>
      intro offset size
      simp only [BlockRecryptIo.readLoopF]
      split
      · split
        · rfl
        · simp [BlockRecryptIo.RCall.isCurrDerive, ih]
      · rfl

theorem recrypt_writeLoopF_calls (BLK : Nat) (c : Crypter) (next : Nat → Key)
    (fuel : Nat) : ∀ data offset buf,
    ((BlockRecryptIo.writeLoopF BLK c next fuel data offset buf).2.2.1).all
      (fun x => ! x.isUpdate) = true := by
  induction fuel with
  | zero =>
      intro data offset buf
      rfl
  | succ f ih =>
      intro data offset buf
      simp only [BlockRecryptIo.writeLoopF]
      split
      · simp only [List.all_cons, Bool.and_eq_true]
        refine ⟨by rfl, ?_⟩
        exact ih _ _ _
      · rfl

theorem recrypt_writeTail_calls (BLK : Nat) (c : Crypter) (curr next : Nat → Key)
    (data : List Nat) (offset : Nat) (buf : List Nat) :
    ((BlockRecryptIo.writeTail BLK c curr next data offset buf).2.2.1).all
      (fun x => ! x.isUpdate) = true := by
  simp only [BlockRecryptIo.writeTail]
  split
  · exact recrypt_writeLoopF_calls BLK c next buf.length data offset buf
  · rw [List.all_append]
    simp only [Bool.and_eq_true]
    refine ⟨recrypt_writeLoopF_calls BLK c next buf.length data offset buf, by rfl⟩

/-- C8: BlockRecryptIo read decrypts every block with a key derived from the
current authority; BlockRecryptIo write decrypts a read-modify-write block with
the current authority and encrypts what it writes with the next authority; and
neither read nor write ever calls update on either authority, so both
authorities are left unchanged by these operations. -/
theorem c8_recrypt_derive_only (BLK : Nat) (c : Crypter) (curr next : Nat → Key)
    (data : List Nat) (offset n : Nat) (buf : List Nat) :
    (∀ bs tr, BlockRecryptIo.read BLK c curr data offset n = some (bs, tr) →
      tr.all BlockRecryptIo.RCall.isCurrDerive = true)
    ∧ ((BlockRecryptIo.write BLK c curr next data offset buf).2.2.1).all
        (fun x => ! x.isUpdate) = true
    ∧ (offset % BLK ≠ 0 → 0 < min BLK (data.length - offset / BLK * BLK) →
        let block := offset / BLK
        let fill := offset % BLK
        let rest := min buf.length (BLK - fill)
        let off := block * BLK
        let nbytes := min BLK (data.length - off)
        let dec := c.onetime_decrypt (curr block)
          (readAt data off nbytes ++ List.replicate (BLK - nbytes) 0)
        let merged := dec.take fill ++ buf.take rest ++ dec.drop (fill + rest)
        let out := (c.onetime_encrypt (next block) merged).take (max nbytes (fill + rest))
        ((BlockRecryptIo.write BLK c curr next data offset buf).2.2.2).head? =
            some (off, out)
        ∧ ((BlockRecryptIo.write BLK c curr next data offset buf).2.2.1).take 2 =
            [BlockRecryptIo.RCall.currDerive block, BlockRecryptIo.RCall.nextDerive block]) := by
  refine ⟨?_, ?_, ?_⟩
  · intro bs tr h
    unfold BlockRecryptIo.read at h
    by_cases hal : offset % BLK = 0
    · rw [if_pos hal] at h
      obtain ⟨rfl, rfl⟩ : bs = _ ∧ tr = _ := by
        injection h with h1
        exact ⟨congrArg Prod.fst h1.symm, congrArg Prod.snd h1.symm⟩
      exact recrypt_readLoopF_calls BLK c curr data n offset n
    · rw [if_neg hal] at h
      by_cases h0 : min (offset % BLK + min n (BLK - offset % BLK))
          (data.length - offset / BLK * BLK) = 0
      · rw [if_pos h0] at h
        obtain ⟨rfl, rfl⟩ : bs = _ ∧ tr = _ := by
          injection h with h1
          exact ⟨congrArg Prod.fst h1.symm, congrArg Prod.snd h1.symm⟩
        rfl
      · rw [if_neg h0] at h
        by_cases h1 : min (offset % BLK + min n (BLK - offset % BLK))
            (data.length - offset / BLK * BLK) < offset % BLK
        · rw [if_pos h1] at h
          exact absurd h (by simp)
        · rw [if_neg h1] at h
          by_cases h2 : min (offset % BLK + min n (BLK - offset % BLK))
              (data.length - offset / BLK * BLK) - offset % BLK = 0
          · rw [if_pos h2] at h
            obtain ⟨rfl, rfl⟩ : bs = _ ∧ tr = _ := by
              injection h with h1
              exact ⟨congrArg Prod.fst h1.symm, congrArg Prod.snd h1.symm⟩
            rfl
          · rw [if_neg h2] at h
            obtain ⟨rfl, rfl⟩ : bs = _ ∧ tr = _ := by
              injection h with h1
              exact ⟨congrArg Prod.fst h1.symm, congrArg Prod.snd h1.symm⟩
            simp [BlockRecryptIo.RCall.isCurrDerive,
              recrypt_readLoopF_calls BLK c curr data]
  · unfold BlockRecryptIo.write
    by_cases hal : offset % BLK = 0
    · rw [if_pos hal]
      exact recrypt_writeTail_calls BLK c curr next data offset buf
    · rw [if_neg hal]
      by_cases h0 : min BLK (data.length - offset / BLK * BLK) = 0
      · rw [if_pos h0]
        rfl
      · rw [if_neg h0]
        by_cases hr : min buf.length (BLK - offset % BLK) = 0
        · rw [if_pos hr]
          rfl
        · rw [if_neg hr]
          simp only [List.all_cons, Bool.and_eq_true]
          refine ⟨by rfl, by rfl, ?_⟩
          exact recrypt_writeTail_calls BLK c curr next _ _ _
  · intro hal hnb
    simp only [BlockRecryptIo.write, if_neg hal]
    rw [if_neg (by omega)]
    by_cases hr : min buf.length (BLK - offset % BLK) = 0
    · rw [if_pos hr]
      exact ⟨rfl, rfl⟩
    · rw [if_neg hr]
      exact ⟨rfl, rfl⟩

/-- Witness for c8_recrypt_derive_only at concrete inputs: block size 4, a
4-byte object, read of 3 bytes and write of 1 byte at offset 1. -/
theorem c8_recrypt_derive_only_witness :
    (∀ bs tr, BlockRecryptIo.read 4 cexCrypter (fun b => [b]) [1, 2, 3, 4] 1 3 =
        some (bs, tr) → tr.all BlockRecryptIo.RCall.isCurrDerive = true)
    ∧ ((BlockRecryptIo.write 4 cexCrypter (fun b => [b]) (fun b => [b, b])
        [1, 2, 3, 4] 1 [99]).2.2.1).all (fun x => ! x.isUpdate) = true
    ∧ ((1 : Nat) % 4 ≠ 0 → 0 < min 4 (([1, 2, 3, 4] : List Nat).length - 1 / 4 * 4) →
        let block := 1 / 4
        let fill := 1 % 4
        let rest := min ([(99 : Nat)] : List Nat).length (4 - fill)
        let off := block * 4
        let nbytes := min 4 (([1, 2, 3, 4] : List Nat).length - off)
        let dec := cexCrypter.onetime_decrypt ((fun b => [b]) block)
          (readAt [1, 2, 3, 4] off nbytes ++ List.replicate (4 - nbytes) 0)
        let merged := dec.take fill ++ ([(99 : Nat)] : List Nat).take rest ++
          dec.drop (fill + rest)
        let out := (cexCrypter.onetime_encrypt ((fun b => [b, b]) block) merged).take
          (max nbytes (fill + rest))
        ((BlockRecryptIo.write 4 cexCrypter (fun b => [b]) (fun b => [b, b])
            [1, 2, 3, 4] 1 [99]).2.2.2).head? = some (off, out)
        ∧ ((BlockRecryptIo.write 4 cexCrypter (fun b => [b]) (fun b => [b, b])
            [1, 2, 3, 4] 1 [99]).2.2.1).take 2 =
            [BlockRecryptIo.RCall.currDerive block,
              BlockRecryptIo.RCall.nextDerive block]) :=
  c8_recrypt_derive_only 4 cexCrypter (fun b => [b]) (fun b => [b, b]) [1, 2, 3, 4] 1 3 [99]

/-- C1: the plain-file round-trip property fails on the code.  Evaluation at
the failing input: writing one byte into an empty object accepts 1 byte but
the tail read-modify-write writes the whole block buffer back, extending the
backing object to a full 4-byte block; a fresh handle then reads 2 bytes at
offset 0 (the first being the written byte and the second junk decrypted from
the zero padding), while a plain file holds exactly 1 byte and returns it
alone. -/
theorem c1_roundtrip_diverges :
    c1Write.1 = 1 ∧
    c1Write.2.1.length = 4 ∧
    (BlockCryptIo.read 4 cexCrypter c1Write.2.2.1 c1Write.2.1 0 2).map List.length =
      some 2 ∧
    (BlockCryptIo.read 4 cexCrypter c1Write.2.2.1 c1Write.2.1 0 2).map (List.take 1) =
      some [97] ∧
    writeAt [] 0 [97] = [97] ∧
    readAt (writeAt [] 0 [97]) 0 2 = [97] := by
  decide

/-- C2: persist_state writes the dirty object-Khf blob to backing object
khf_id = 5 (where it decrypts and decodes, under master_khf.derive 5, to
exactly the persisted forest), but the lazy load reads backing object
map_id = 4 (the user-data object, here empty), so reloading the forest after a
commit fails instead of recovering it. -/
theorem c2_persist_load_id_mismatch :
    (storeGet c2Cleared.storage 5).isSome = true ∧
    decodeKhf (cexCrypter.onetime_decrypt (c2Cleared.master_khf.derive 5)
        ((storeGet c2Cleared.storage 5).getD [])) =
      some (⟨7, [(0, 2)], []⟩, []) ∧
    storeGet c2Cleared.storage 4 = some [] ∧
    load_khf cexCrypter c2Cleared 7 = .error .khf := by
  decide

/-- C3: load_state is atomic on failure: whenever it returns an error, none of
the fields master_key, master_khf, object_khf_fanouts, allocator, mappings has
been mutated; every fallible read and deserialization precedes every field
assignment. -/
theorem c3_load_state_atomic (E : Nat) (cr : Crypter) (L : LetheSt) (e : Err)
    (h : (load_state E cr L).2 = some e) :
    (load_state E cr L).1.master_key = L.master_key ∧
    (load_state E cr L).1.master_khf = L.master_khf ∧
    (load_state E cr L).1.object_khf_fanouts = L.object_khf_fanouts ∧
    (load_state E cr L).1.allocator = L.allocator ∧
    (load_state E cr L).1.mappings = L.mappings := by
  unfold load_state at h ⊢
  cases hr : load_state_reads E cr L with
  | error e2 => exact ⟨rfl, rfl, rfl, rfl, rfl⟩
  | ok t =>
      obtain ⟨mk, khf, fan, al, mp⟩ := t
      rw [hr] at h
      exact Option.noConfusion h

/-- Witness for c3_load_state_atomic: a state whose backing store lacks the
reserved blobs makes load_state fail with an io error and leaves every field
alone. -/
theorem c3_load_state_atomic_witness :
    (load_state 2 cexCrypter c3FailSt).2 = some .io ∧
    ((load_state 2 cexCrypter c3FailSt).1.master_key = c3FailSt.master_key ∧
      (load_state 2 cexCrypter c3FailSt).1.master_khf = c3FailSt.master_khf ∧
      (load_state 2 cexCrypter c3FailSt).1.object_khf_fanouts =
        c3FailSt.object_khf_fanouts ∧
      (load_state 2 cexCrypter c3FailSt).1.allocator = c3FailSt.allocator ∧
      (load_state 2 cexCrypter c3FailSt).1.mappings = c3FailSt.mappings) :=
  ⟨by decide, c3_load_state_atomic 2 cexCrypter c3FailSt .io (by decide)⟩

theorem persistBlobs_trace (cr : Crypter) (mkhf : Khf) (okhfs : List (Nat × Khf)) :
    ∀ (dirty : List Nat) (st st2 : Store) (tr : List PEvent),
      persistBlobs cr mkhf okhfs dirty st = some (st2, tr) →
      tr = dirty.map (fun id => PEvent.blobWrite id
        (cr.onetime_encrypt (mkhf.derive id)
          (encodeKhf ((okhfs.lookup id).getD ⟨0, [], []⟩)))) := by
  intro dirty
  induction dirty with
  | nil =>
      intro st st2 tr h
      simp only [persistBlobs] at h
      obtain ⟨h1, h2⟩ : st = st2 ∧ [] = tr := by
        injection h with h0
        exact ⟨congrArg Prod.fst h0, congrArg Prod.snd h0⟩
      simp [← h2]
  | cons id rest ih =>
      intro st st2 tr h
      simp only [persistBlobs] at h
      cases hke : okhfs.lookup id with
      | none =>
          simp only [hke] at h
          exact Option.noConfusion h
      | some khf =>
          simp only [hke] at h
          cases hrec : persistBlobs cr mkhf okhfs rest
              (storeSet st id (writeAt ((storeGet st id).getD []) 0
                (cr.onetime_encrypt (mkhf.derive id) (encodeKhf khf)))) with
          | none =>
              rw [hrec] at h
              exact absurd h (by simp)
          | some r =>
              rw [hrec, Option.map_some'] at h
              have hp := Option.some.inj h
              rw [Prod.mk.injEq] at hp
              obtain ⟨h1, h2⟩ := hp
              rw [← h2, List.map_cons, hke]
              exact congrArg _ (ih _ r.1 r.2 hrec)

/-- C5: within every successful persist_state, the emitted events occur in
this order: the dirty object-Khf blob writes first, then the master-key
regeneration, then the four reserved-id writes in order 0, 1, 2, 3 under the
new master key, then the write of exactly E bytes of the new master key at
enclave offset 0, and only then the forwarded persist on the backing store. -/
theorem c5_persist_order (E : Nat) (cr : Crypter) (L st : LetheSt)
    (tr : List PEvent) (h : persist_state E cr L = some (st, tr)) :
    tr = (L.master_khf.commit.1).map (fun id =>
        PEvent.blobWrite id (cr.onetime_encrypt (L.master_khf.commit.2.derive id)
          (encodeKhf ((L.object_khfs.lookup id).getD ⟨0, [], []⟩)))) ++
      [PEvent.regenKey,
        PEvent.reservedWrite MASTER_KHF_OBJID
          (cr.onetime_encrypt (rngBytes L.rngCtr E) (encodeKhf L.master_khf.commit.2)),
        PEvent.reservedWrite OBJECT_KHF_FANOUTS_OBJID
          (cr.onetime_encrypt (rngBytes L.rngCtr E) (encodeList L.object_khf_fanouts)),
        PEvent.reservedWrite ALLOCATOR_OBJID
          (cr.onetime_encrypt (rngBytes L.rngCtr E) (encodeAlloc L.allocator)),
        PEvent.reservedWrite MAPPINGS_OBJID
          (cr.onetime_encrypt (rngBytes L.rngCtr E) (encodeMappings L.mappings)),
        PEvent.enclaveWrite 0 (rngBytes L.rngCtr E),
        PEvent.forwardPersist] ∧
    (rngBytes L.rngCtr E).length = E ∧
    st.master_key = rngBytes L.rngCtr E ∧
    st.enclave = writeAt L.enclave 0 (rngBytes L.rngCtr E) := by
  simp only [persist_state] at h
  cases hpb : persistBlobs cr L.master_khf.commit.2 L.object_khfs
      L.master_khf.commit.1 L.storage with
  | none =>
      rw [hpb] at h
      exact absurd h (by simp)
  | some p =>
      obtain ⟨pst, ptr⟩ := p
      simp only [hpb] at h
      have hp := Option.some.inj h
      rw [Prod.mk.injEq] at hp
      obtain ⟨h1, h2⟩ := hp
      refine ⟨?_, length_rngBytes _ _, ?_, ?_⟩
      · rw [← h2,
          persistBlobs_trace cr L.master_khf.commit.2 L.object_khfs
            L.master_khf.commit.1 L.storage pst ptr hpb]
      · rw [← h1]
      · rw [← h1]

/-- Witness for c5_persist_order: the commit on the concrete dirty state c2St
succeeds and its trace has the stated shape. -/
theorem c5_persist_order_witness :
    persist_state 2 cexCrypter c2St = some (c5Pair.1, c5Pair.2) ∧
    (c5Pair.2 = (c2St.master_khf.commit.1).map (fun id =>
        PEvent.blobWrite id (cexCrypter.onetime_encrypt
          (c2St.master_khf.commit.2.derive id)
          (encodeKhf ((c2St.object_khfs.lookup id).getD ⟨0, [], []⟩)))) ++
      [PEvent.regenKey,
        PEvent.reservedWrite MASTER_KHF_OBJID
          (cexCrypter.onetime_encrypt (rngBytes c2St.rngCtr 2)
            (encodeKhf c2St.master_khf.commit.2)),
        PEvent.reservedWrite OBJECT_KHF_FANOUTS_OBJID
          (cexCrypter.onetime_encrypt (rngBytes c2St.rngCtr 2)
            (encodeList c2St.object_khf_fanouts)),
        PEvent.reservedWrite ALLOCATOR_OBJID
          (cexCrypter.onetime_encrypt (rngBytes c2St.rngCtr 2)
            (encodeAlloc c2St.allocator)),
        PEvent.reservedWrite MAPPINGS_OBJID
          (cexCrypter.onetime_encrypt (rngBytes c2St.rngCtr 2)
            (encodeMappings c2St.mappings)),
        PEvent.enclaveWrite 0 (rngBytes c2St.rngCtr 2),
        PEvent.forwardPersist] ∧
    (rngBytes c2St.rngCtr 2).length = 2 ∧
    c5Pair.1.master_key = rngBytes c2St.rngCtr 2 ∧
    c5Pair.1.enclave = writeAt c2St.enclave 0 (rngBytes c2St.rngCtr 2)) :=
  ⟨by decide, c5_persist_order 2 cexCrypter c2St c5Pair.1 c5Pair.2 (by decide)⟩

/-- C6: truncate(7, 6) with block size 4 calls truncate on the backing store
with the EXTERNAL object id 7 instead of map_id 4 (here failing, since the
backing store has no object 7, and leaving the 8-byte object at id 4
untruncated); and because BlockCryptIo seek ignores its argument, the partial
block rewrite reads the FIRST 2 bytes of the object and rewrites them at
offset 2, corrupting bytes 2 and 3 to 10, 11 instead of re-keying the final
partial block bytes 4 and 5. -/
theorem c6_truncate_wrong_target :
    c6Res.2.1 = [(7, 6)] ∧
    c6Res.2.2 = some .io ∧
    ((storeGet c6Res.1.storage 4).getD []).length = 8 ∧
    BlockCryptIo.read 4 cexCrypter ((c6Res.1.object_khfs.lookup 5).getD c6Khf)
        ((storeGet c6Res.1.storage 4).getD []) 0 8 =
      some [10, 11, 10, 11, 14, 15, 16, 17] := by
  decide

end Lethe
